import Mathlib

/-!
# Verification of the `ddb` expression builder and transactional coordinator

Shallow embedding of the core of the `ddb` Go library (expression
builder in `expression.go`, error taxonomy in `errors.go`, key helpers in
`util.go`, the legacy update resolver in `update.go`, the `Update` builder,
the `Get`/`getTx` decoding path in `get.go`, and the transactional write
coordinator in `ddb.go`).

Modelling conventions:
* Go byte strings that are built up and sliced are modelled as `List Char`
  (`Str`); all rendered content is ASCII so char-level and byte-level
  slicing coincide.  Identifier-like strings (attribute names, aliases,
  error codes) stay Lean `String`s.
* Go maps that the code iterates over are modelled as association lists in
  insertion order.  Go's map iteration order is unspecified; every theorem
  below depends only on facts that are insensitive to that order (the
  relevant scans run over maps with at most one matching entry).
* `time.Duration` values are carried in milliseconds.
* Randomness (`ksuid` request tokens) is abstracted by passing the token
  generator as a function.
-/

namespace Ddb

/-- Go byte-strings under construction, modelled at character granularity. -/
abbrev Str := List Char

/-- Wire value (`dynamodb.AttributeValue`), restricted to the scalar shapes
the modelled code inspects (`errors.go` `keyToString` looks at `S`, `N`,
`B` and treats everything else as null). -/
inductive AttributeValue where
  | S (s : String)
  | N (n : String)
  | B (bytes : List Nat)
  | NULL
deriving DecidableEq, Repr

/-- A native Go value handed to the builder (`interface{}`), as seen by
`util.go`'s `marshal`: strings marshal to `S`, ints to `N`, an
`*dynamodb.AttributeValue` is passed through, `nil` marshals to `NULL`, and
`bad` stands for any value the reflection-based marshaller rejects. -/
inductive GoValue where
  | str (s : String)
  | num (n : Int)
  | attr (a : AttributeValue)
  | nilVal
  | bad
deriving DecidableEq, Repr

/-- `util.go` `marshal`: convert a native value to a wire value. -/
def marshal : GoValue → Except String AttributeValue
  | .str s => .ok (.S s)
  | .num n => .ok (.N (toString n))
  | .attr a => .ok a
  | .nilVal => .ok .NULL
  | .bad => .error "unsupported type"

/-- Error codes from `errors.go`. -/
def ErrInvalidFieldName : String := "InvalidFieldName"

def ErrItemNotFound : String := "ItemNotFound"

def ErrMismatchedValueCount : String := "MismatchedValueCount"

def ErrUnableToMarshalItem : String := "UnableToMarshalItem"

/-- Errors of the library.  `base` is `errors.go`'s `baseError` with a nil
cause (code, message, keys, table name); `baseCaused` is a `baseError`
wrapping a cause; `fmtErr` is a plain `fmt.Errorf` error (no code, no
cause); `awsCanceled` models a `types.TransactionCanceledException` with
its per-item cancellation reason codes; `awsOther` is any other service
error. -/
inductive GoErr where
  | base (code message : String)
      (hashKey rangeKey : Option AttributeValue) (tableName : String)
  | baseCaused (code message : String) (cause : GoErr)
      (hashKey rangeKey : Option AttributeValue) (tableName : String)
  | fmtErr (message : String)
  | awsCanceled (reasons : List (Option String)) (message : String)
  | awsOther (message : String)
deriving DecidableEq, Repr

/-- `errors.go` `errorf`: a coded error with no cause and no keys. -/
def errorf (code message : String) : GoErr :=
  .base code message none none ""

/-- `errors.go` `wrapf`: wrap a non-nil cause with a code and message. -/
def wrapf (cause : GoErr) (code message : String) : GoErr :=
  .baseCaused code message cause none none ""

/-- `errors.go` `hasError`: an error carries `code` if it (or a cause in
its chain) is a coded error with that code.  Plain `fmt` errors and raw
service errors carry no code. -/
def hasError : GoErr → String → Bool
  | .base c _ _ _ _, code => c == code
  | .baseCaused c _ cause _ _ _, code => c == code || hasError cause code
  | _, _ => false

/-- `errors.go` `IsMismatchedValueCountError`. -/
def IsMismatchedValueCountError (e : GoErr) : Bool :=
  hasError e ErrMismatchedValueCount

/-- `errors.go` `IsInvalidFieldNameError`. -/
def IsInvalidFieldNameError (e : GoErr) : Bool :=
  hasError e ErrInvalidFieldName

/-- `errors.go` `IsItemNotFoundError`. -/
def IsItemNotFoundError (e : GoErr) : Bool :=
  hasError e ErrItemNotFound

/-- `baseError.Keys()`. -/
def GoErr.Keys : GoErr → Option AttributeValue × Option AttributeValue
  | .base _ _ h r _ => (h, r)
  | .baseCaused _ _ _ h r _ => (h, r)
  | _ => (none, none)

/-- `baseError.TableName()`. -/
def GoErr.tblName : GoErr → String
  | .base _ _ _ _ t => t
  | .baseCaused _ _ _ _ _ t => t
  | _ => ""

/-- `baseError.Code()` (empty for errors that have no code). -/
def GoErr.code : GoErr → String
  | .base c _ _ _ _ => c
  | .baseCaused c _ _ _ _ _ => c
  | _ => ""

/-- `tableSpec`'s `attributeSpec`: struct field name, wire attribute name,
wire type. -/
structure attributeSpec where
  FieldName : String
  AttributeName : String
  AttributeType : String
deriving DecidableEq, Repr

/-- `keySpec`: wire name and type of a hash or range key. -/
structure keySpec where
  AttributeName : String
  AttributeType : String
deriving DecidableEq, Repr

/-- `tableSpec` (index specs omitted: never consulted by the modelled
code). -/
structure tableSpec where
  TableName : String
  HashKey : Option keySpec
  RangeKey : Option keySpec
  Attributes : List attributeSpec
deriving DecidableEq, Repr

/-- The `expression` struct of `expression.go`.  `Names`/`Values` are the
alias maps (association lists in insertion order); `index` is the value
counter; the six accumulators are `nil`-able string builders. -/
structure Expr where
  attributes : List attributeSpec
  Names : List (String × String)
  Values : List (String × AttributeValue)
  index : Nat
  Adds : Option Str
  Conditions : Option Str
  Deletes : Option Str
  Filters : Option Str
  Removes : Option Str
  Sets : Option Str
deriving DecidableEq, Repr

/-- `newExpression`. -/
def newExpression (attributes : List attributeSpec) : Expr :=
  { attributes := attributes, Names := [], Values := [], index := 0,
    Adds := none, Conditions := none, Deletes := none, Filters := none,
    Removes := none, Sets := none }

/-- The `for k, v := range e.Names` scan of `addExpressionAttributeName`:
return the first alias whose stored value equals `name` (Go's iteration
order is unspecified; insertion order is used here, and no theorem below
depends on which of several matches would be picked). -/
def findByValue : List (String × String) → String → Option String
  | [], _ => none
  | (k, v) :: rest, name => if v == name then some k else findByValue rest name

/-- `expression.addExpressionAttributeName` (`expression.go` lines 47-70):
reuse an alias whose stored value equals the raw `name`; otherwise mint
`#n<len+1>` and store the resolved wire name (schema hit on wire name or
field name) or, failing that, the literal `name`. -/
def Expr.addExpressionAttributeName (e : Expr) (name : String) : String × Expr :=
  match findByValue e.Names name with
  | some k => (k, e)
  | none =>
    let key := "#n" ++ Nat.repr (e.Names.length + 1)
    match e.attributes.find? (fun attr =>
        name == attr.AttributeName || name == attr.FieldName) with
    | some attr => (key, { e with Names := e.Names ++ [(key, attr.AttributeName)] })
    | none => (key, { e with Names := e.Names ++ [(key, name)] })

/-- `expression.addExpressionAttributeValue` (`expression.go` lines 72-82):
always mint the fresh alias `:v<index+1>`, never deduplicate. -/
def Expr.addExpressionAttributeValue (e : Expr) (item : AttributeValue) : String × Expr :=
  let id := e.index + 1
  let name := ":v" ++ Nat.repr id
  (name, { e with index := id, Values := e.Values ++ [(name, item)] })

/-- `expression.go` `isAlphaNumeric`. -/
def isAlphaNumeric (r : Char) : Bool :=
  (decide ('a' ≤ r) && decide (r ≤ 'z')) ||
  (decide ('A' ≤ r) && decide (r ≤ 'Z')) ||
  (decide ('0' ≤ r) && decide (r ≤ '9'))

/-- The character loop of `expression.parse` (`expression.go` lines
217-292).  Arguments mirror the Go locals: the remaining characters of the
template, the expression being mutated, the output buffer `buf`, the
in-progress name buffer `bufName`, the `inName` flag and the argument
cursor `index`.  Returns the (possibly partially) mutated expression and
either an error or the rendered buffer with the final cursor.  In Go,
`bufName` is empty whenever `inName` is false, so the reset on the
non-name paths is a no-op there.  The branch where a flushed name is
followed by the `switch` is written out twice, mirroring the fall-through
in the source. -/
def parseGo (values : List GoValue) :
    Str → Expr → Str → Str → Bool → Nat → Expr × Except GoErr (Str × Nat)
  | [], e, buf, bufName, _inName, index =>
    if bufName.length > 0 then
      let r := e.addExpressionAttributeName bufName.asString
      (r.2, .ok (buf ++ r.1.data, index))
    else
      (e, .ok (buf, index))
  | v :: rest, e, buf, bufName, inName, index =>
    if inName then
      if isAlphaNumeric v then
        parseGo values rest e buf (bufName ++ [v]) true index
      else if v = '?' then
        match values[index]? with
        | none => (e, .error (errorf ErrMismatchedValueCount "not enough values"))
        | some (GoValue.str name) =>
          let r := e.addExpressionAttributeName name
          parseGo values rest r.2 (buf ++ r.1.data) [] false (index + 1)
        | some _ =>
          (e, .error (.fmtErr ("expected value[" ++ Nat.repr index ++ "] to be a string")))
      else
        let r := e.addExpressionAttributeName bufName.asString
        let e₁ := r.2
        let buf₁ := buf ++ r.1.data
        if v = '?' then
          match values[index]? with
          | none => (e₁, .error (errorf ErrMismatchedValueCount "not enough values"))
          | some gv =>
            match marshal gv with
            | .error msg => (e₁, .error (.fmtErr ("unable to marshal value: " ++ msg)))
            | .ok item =>
              let s := e₁.addExpressionAttributeValue item
              parseGo values rest s.2 (buf₁ ++ s.1.data) [] false (index + 1)
        else if v = '#' then
          parseGo values rest e₁ buf₁ [] true index
        else
          parseGo values rest e₁ (buf₁ ++ [v]) [] false index
    else
      if v = '?' then
        match values[index]? with
        | none => (e, .error (errorf ErrMismatchedValueCount "not enough values"))
        | some gv =>
          match marshal gv with
          | .error msg => (e, .error (.fmtErr ("unable to marshal value: " ++ msg)))
          | .ok item =>
            let s := e.addExpressionAttributeValue item
            parseGo values rest s.2 (buf ++ s.1.data) [] false (index + 1)
      else if v = '#' then
        parseGo values rest e buf [] true index
      else
        parseGo values rest e (buf ++ [v]) [] false index

/-- `expression.parse`: run the character loop from the initial state and
apply the final argument-count check (`got != want` is a plain `fmt`
error, not a coded one). -/
def Expr.parse (e : Expr) (template : Str) (values : List GoValue) :
    Expr × Except GoErr Str :=
  match parseGo values template e [] [] false 0 with
  | (e', .error err) => (e', .error err)
  | (e', .ok (buf, index)) =>
    if values.length ≠ index then
      (e', .error (.fmtErr ("mismatched number of values; got " ++
        Nat.repr values.length ++ ", want " ++ Nat.repr index)))
    else
      (e', .ok buf)

/-- Go `unicode.IsSpace` restricted to the ASCII whitespace that can occur
in the modelled templates. -/
def goIsSpace (c : Char) : Bool :=
  c == ' ' || c == '\t' || c == '\n' || c == '\r'

/-- `strings.TrimSpace`. -/
def trimSpace (s : Str) : Str :=
  ((s.dropWhile goIsSpace).reverse.dropWhile goIsSpace).reverse

/-- `expression.append` (`expression.go` lines 146-165): parse, then write
either `keyword ++ " "` (first clause of an accumulator with a keyword) or
the separator, followed by the space-trimmed rendered clause. -/
def Expr.appendClause (e : Expr) (buf : Str) (keyword : String) (separator : Str)
    (template : Str) (values : List GoValue) : Expr × Except GoErr Str :=
  match e.parse template values with
  | (e', .error err) => (e', .error err)
  | (e', .ok rendered) =>
    let buf' :=
      if buf.length = 0 then
        (if keyword.length > 0 then keyword.data ++ [' '] else []) ++ trimSpace rendered
      else
        buf ++ separator ++ trimSpace rendered
    (e', .ok buf')

/-- The separator constant `comma`. -/
def comma : Str := [',', ' ']

/-- `expression.Add`: create the accumulator if nil, then append.  On a
parse error the accumulator stays as it was (but has been created), the
alias maps keep any mutations parse already made, and the error is
returned. -/
def Expr.Add (e : Expr) (template : Str) (values : List GoValue) :
    Expr × Option GoErr :=
  let cur := e.Adds.getD []
  match e.appendClause cur "Add" comma template values with
  | (e', .error err) => ({ e' with Adds := some cur }, some err)
  | (e', .ok buf') => ({ e' with Adds := some buf' }, none)

/-- `expression.Condition`: no keyword, clauses joined with `" and "`. -/
def Expr.Condition (e : Expr) (template : Str) (values : List GoValue) :
    Expr × Option GoErr :=
  let cur := e.Conditions.getD []
  match e.appendClause cur "" " and ".data template values with
  | (e', .error err) => ({ e' with Conditions := some cur }, some err)
  | (e', .ok buf') => ({ e' with Conditions := some buf' }, none)

/-- `expression.Delete`. -/
def Expr.Delete (e : Expr) (template : Str) (values : List GoValue) :
    Expr × Option GoErr :=
  let cur := e.Deletes.getD []
  match e.appendClause cur "Delete" comma template values with
  | (e', .error err) => ({ e' with Deletes := some cur }, some err)
  | (e', .ok buf') => ({ e' with Deletes := some buf' }, none)

/-- `expression.Filter`: no keyword, clauses joined with `" and "`. -/
def Expr.Filter (e : Expr) (template : Str) (values : List GoValue) :
    Expr × Option GoErr :=
  let cur := e.Filters.getD []
  match e.appendClause cur "" " and ".data template values with
  | (e', .error err) => ({ e' with Filters := some cur }, some err)
  | (e', .ok buf') => ({ e' with Filters := some buf' }, none)

/-- `expression.Remove`. -/
def Expr.Remove (e : Expr) (template : Str) (values : List GoValue) :
    Expr × Option GoErr :=
  let cur := e.Removes.getD []
  match e.appendClause cur "Remove" comma template values with
  | (e', .error err) => ({ e' with Removes := some cur }, some err)
  | (e', .ok buf') => ({ e' with Removes := some buf' }, none)

/-- `expression.Set`. -/
def Expr.Set (e : Expr) (template : Str) (values : List GoValue) :
    Expr × Option GoErr :=
  let cur := e.Sets.getD []
  match e.appendClause cur "Set" comma template values with
  | (e', .error err) => ({ e' with Sets := some cur }, some err)
  | (e', .ok buf') => ({ e' with Sets := some buf' }, none)

/-- `expression.UpdateExpression` (`expression.go` lines 84-128): size the
buffer from the non-nil accumulators (nil result only when all four are
nil), then emit `Sets`, `Removes`, `Adds`, `Deletes` — in that fixed order
— each followed by one space, and slice off the final byte
(`expr[0 : len(expr)-1]`). -/
def Expr.UpdateExpression (e : Expr) : Option Str :=
  let padding := 3
  let size :=
    (match e.Adds with | none => 0 | some s => s.length + padding) +
    (match e.Deletes with | none => 0 | some s => s.length + padding) +
    (match e.Removes with | none => 0 | some s => s.length + padding) +
    (match e.Sets with | none => 0 | some s => s.length + padding)
  if size = 0 then none
  else
    let buf :=
      (match e.Sets with | none => [] | some s => s ++ [' ']) ++
      (match e.Removes with | none => [] | some s => s ++ [' ']) ++
      (match e.Adds with | none => [] | some s => s ++ [' ']) ++
      (match e.Deletes with | none => [] | some s => s ++ [' '])
    some (buf.take (buf.length - 1))

/-- `expression.ConditionExpression`. -/
def Expr.ConditionExpression (e : Expr) : Option Str := e.Conditions

/-- `expression.FilterExpression`. -/
def Expr.FilterExpression (e : Expr) : Option Str := e.Filters

/-- A clause-building call on one expression: the six methods of
`expression.go` with their template and bound arguments. -/
inductive ClauseCall where
  | add (template : Str) (values : List GoValue)
  | condition (template : Str) (values : List GoValue)
  | delete (template : Str) (values : List GoValue)
  | filter (template : Str) (values : List GoValue)
  | remove (template : Str) (values : List GoValue)
  | set (template : Str) (values : List GoValue)
deriving DecidableEq, Repr

/-- Dispatch one clause-building call. -/
def Expr.applyCall (e : Expr) : ClauseCall → Expr × Option GoErr
  | .add t vs => e.Add t vs
  | .condition t vs => e.Condition t vs
  | .delete t vs => e.Delete t vs
  | .filter t vs => e.Filter t vs
  | .remove t vs => e.Remove t vs
  | .set t vs => e.Set t vs

/-- Run a sequence of clause-building calls, keeping the expression state
each produces (Go mutates the expression in place). -/
def Expr.applyCalls (e : Expr) (calls : List ClauseCall) : Expr :=
  calls.foldl (fun e c => (e.applyCall c).1) e

/-! ## Go map insertion and key helpers (`util.go`) -/

/-- Assignment into a Go `map[string]V` modelled on an association list:
overwrite the existing entry, else append. -/
def mapInsert {V : Type} (m : List (String × V)) (k : String) (v : V) :
    List (String × V) :=
  if m.any (fun kv => kv.1 == k) then
    m.map (fun kv => if kv.1 == k then (k, v) else kv)
  else
    m ++ [(k, v)]

/-- Lookup in a Go `map[string]V` association list. -/
def mapLookup {V : Type} : List (String × V) → String → Option V
  | [], _ => none
  | (k, v) :: rest, key => if k == key then some v else mapLookup rest key

/-- `util.go` `makeKey`: marshal the hash and range keys (wrapping a
marshalling failure in an `UnableToMarshalItem` error) and store them
under the spec's hash/range attribute names. -/
def makeKey (spec : tableSpec) (hashKey rangeKey : GoValue) :
    Except GoErr (List (String × AttributeValue)) :=
  match marshal hashKey with
  | .error msg =>
    .error (wrapf (.fmtErr msg) ErrUnableToMarshalItem "unable to encode hash key")
  | .ok hk =>
    match marshal rangeKey with
    | .error msg =>
      .error (wrapf (.fmtErr msg) ErrUnableToMarshalItem "unable to encode range key")
    | .ok rk =>
      let keys : List (String × AttributeValue) := []
      let keys := match spec.HashKey with
        | some key => mapInsert keys key.AttributeName hk
        | none => keys
      let keys := match spec.RangeKey with
        | some key => mapInsert keys key.AttributeName rk
        | none => keys
      .ok keys

/-! ## Not-found errors (`errors.go`) and `Get` decoding (`get.go`) -/

/-- One lowercase hex digit. -/
def hexDigit (n : Nat) : Char :=
  if n < 10 then Char.ofNat ('0'.toNat + n) else Char.ofNat ('a'.toNat + n - 10)

/-- `hex.EncodeToString` over bytes. -/
def hexEncode (bytes : List Nat) : String :=
  String.mk (bytes.flatMap (fun b => [hexDigit (b / 16 % 16), hexDigit (b % 16)]))

/-- `errors.go` `keyToString`: render a hash or range key for the
not-found message. -/
def keyToString : Option AttributeValue → String
  | none => "null"
  | some (.S s) => s
  | some (.N n) => n
  | some (.B bytes) => if bytes.length > 0 then hexEncode bytes else "null"
  | some .NULL => "null"

/-- `errors.go` `notFoundError` (lines 157-176): an `ItemNotFound` error
carrying the keys and table name, with the message rendered from them. -/
def notFoundError (hashKey rangeKey : Option AttributeValue) (tableName : String) :
    GoErr :=
  let message :=
    match hashKey, rangeKey with
    | none, none => "item not found"
    | hk, none =>
      "failed to find item, " ++ keyToString hk ++ ", in table, " ++ tableName
    | hk, rk =>
      "failed to find item, " ++ keyToString hk ++ "#" ++ keyToString rk ++
        ", in table, " ++ tableName
  .base ErrItemNotFound message hashKey rangeKey tableName

/-- Modelled from the spec: `getMetadata` is called by `get.go` but its
definition is not among the provided sources.  Per the spec, the
coordinator "must recompute them from the original request item": the hash
(resp. range) key is the entry of the request's key map under the spec's
hash (resp. range) key attribute name, and the table name comes from the
table spec. -/
def getMetadata (key : List (String × AttributeValue)) (spec : tableSpec) :
    Option AttributeValue × Option AttributeValue × String :=
  (spec.HashKey.bind (fun k => mapLookup key k.AttributeName),
   spec.RangeKey.bind (fun k => mapLookup key k.AttributeName),
   spec.TableName)

/-- The fields of `get.go`'s `Get` builder that its transactional path
reads (API handle and capacity accumulators carry no modelled state). -/
structure Get where
  spec : tableSpec
  hashKey : GoValue
  rangeKey : GoValue
deriving DecidableEq, Repr

/-- The `Get` side of a `types.TransactGetItem`. -/
structure TransactGetItemGet where
  Key : List (String × AttributeValue)
  TableName : String
deriving DecidableEq, Repr

/-- `getTx.Tx` (`get.go`): build the transactional get item from the key. -/
def Get.Tx (g : Get) : Except GoErr TransactGetItemGet :=
  match makeKey g.spec g.hashKey g.rangeKey with
  | .error err => .error err
  | .ok key => .ok { Key := key, TableName := g.spec.TableName }

/-- `getTx.Decode` (`get.go` lines 45-54) restricted to the claim-relevant
empty-item path: a present item is unmarshalled into the caller's target
(not modelled — it carries no error state the claims mention); an empty
item is turned into the structured not-found error recomputed from the
original request, falling back to a bare `ItemNotFound` if the request
item itself cannot be rebuilt. -/
def Get.Decode (g : Get) (item : List (String × AttributeValue)) : Option GoErr :=
  if item.length = 0 then
    match g.Tx with
    | .ok tx =>
      let m := getMetadata tx.Key g.spec
      some (notFoundError m.1 m.2.1 m.2.2)
    | .error _ => some (errorf ErrItemNotFound "item not found")
  else
    none

/-! ## The legacy `Update` resolver (`update.go` lines 70-91) -/

/-- `Update.setExpressionAttributeName` from the legacy `update.go`
builder: `name` includes the leading `#`; the first attribute whose wire
name or field name equals `name[1:]` resolves it (a wire-name hit renames
the alias to `#FieldName`); no hit — including when the attribute list is
empty — is an `InvalidFieldName` error. -/
def legacySetExpressionAttributeName (attrs : List attributeSpec)
    (names : List (String × String)) (name : String) :
    Except GoErr (List (String × String) × String) :=
  match attrs.find? (fun attr =>
      (name.drop 1) == attr.AttributeName || (name.drop 1) == attr.FieldName) with
  | some attr =>
    let name' := if (name.drop 1) == attr.AttributeName
      then "#" ++ attr.FieldName else name
    .ok (mapInsert names name' attr.AttributeName, name')
  | none => .error (errorf ErrInvalidFieldName ("invalid field name, " ++ name))

/-! ## The `Update` operation builder (sticky-error chaining) -/

/-- The claim-relevant state of the `Update` builder: table spec, keys,
the recorded builder error, the owned expression, and whether new/old
value capture targets were supplied. -/
structure Update where
  spec : tableSpec
  hashKey : GoValue
  rangeKey : GoValue
  err : Option GoErr
  expr : Expr
  newValues : Bool
  oldValues : Bool
deriving DecidableEq, Repr

/-- `Table.Update`: fresh builder over the table's spec. -/
def newUpdate (spec : tableSpec) (hashKey : GoValue) : Update :=
  { spec := spec, hashKey := hashKey, rangeKey := .nilVal, err := none,
    expr := newExpression spec.Attributes, newValues := false, oldValues := false }

/-- `Update.Add` / `Condition` / `Delete` / `Remove` / `Set`: run the
clause call on the owned expression; on failure the error is assigned to
`u.err` (each failure overwrites whatever was recorded before). -/
def Update.applyClause (u : Update) (c : ClauseCall) : Update :=
  match u.expr.applyCall c with
  | (e', some err) => { u with expr := e', err := some err }
  | (e', none) => { u with expr := e' }

/-- `Update.returnValues`. -/
def Update.returnValues (u : Update) : Except GoErr String :=
  if !u.newValues && !u.oldValues then .ok "NONE"
  else if u.newValues && u.oldValues then
    .error (.fmtErr "either NewValues or OldValues may be specified, but not both")
  else if u.newValues then .ok "ALL_NEW"
  else .ok "ALL_OLD"

/-- The fields of `dynamodb.UpdateItemInput` the builder populates. -/
structure UpdateItemInput where
  ConditionExpression : Option Str
  ExpressionAttributeNames : List (String × String)
  ExpressionAttributeValues : List (String × AttributeValue)
  Key : List (String × AttributeValue)
  ReturnValues : String
  TableName : String
  UpdateExpression : Option Str
deriving DecidableEq, Repr

/-- `Update.UpdateItemInput()` (named `updateItemInput` here to avoid
clashing with the input struct): surface the recorded builder error first,
then build the key and render the expression. -/
def Update.updateItemInput (u : Update) : Except GoErr UpdateItemInput :=
  match u.err with
  | some e => .error e
  | none =>
    match makeKey u.spec u.hashKey u.rangeKey with
    | .error err => .error err
    | .ok key =>
      match u.returnValues with
      | .error err => .error err
      | .ok rv =>
        .ok { ConditionExpression := u.expr.ConditionExpression,
              ExpressionAttributeNames := u.expr.Names,
              ExpressionAttributeValues := u.expr.Values,
              Key := key,
              ReturnValues := rv,
              TableName := u.spec.TableName,
              UpdateExpression := u.expr.UpdateExpression }

/-- `Update.RunWithContext`: return the recorded error if any, otherwise
build the input and invoke the API (the post-success unmarshalling of
returned attributes and capacity accrual carry no claim-relevant error
state and are not modelled). -/
def Update.RunWithContext (u : Update) (api : UpdateItemInput → Except GoErr Unit) :
    Option GoErr :=
  match u.err with
  | some e => some e
  | none =>
    match u.updateItemInput with
    | .error err => some err
    | .ok input =>
      match api input with
      | .error err => some err
      | .ok _ => none

/-! ## The transactional write coordinator (`ddb.go`) -/

/-- `defaultMaxAttempts`. -/
def defaultMaxAttempts : Nat := 4

/-- `defaultTimeout = 100 * time.Millisecond`, carried in milliseconds. -/
def defaultTimeout : Nat := 100

/-- The doubling loop of `getTimeout`: `for i := 0; i < attempt; i++ { d *= 2 }`. -/
def doubleLoop : Nat → Nat → Nat
  | 0, d => d
  | n + 1, d => doubleLoop n (d * 2)

/-- `ddb.go` `getTimeout` (lines 311-317). -/
def getTimeout (attempt : Nat) : Nat :=
  doubleLoop attempt defaultTimeout

/-- A `types.TransactWriteItem` (contents opaque to the coordinator). -/
structure TxWriteItem where
  payload : String
deriving DecidableEq, Repr

/-- The fields of `dynamodb.TransactWriteItemsInput` the coordinator
populates. -/
structure TxWriteInput where
  ClientRequestToken : String
  TransactItems : List TxWriteItem
deriving DecidableEq, Repr

/-- A `dynamodb.TransactWriteItemsOutput` (opaque). -/
structure TxOutput where
  raw : Nat
deriving DecidableEq, Repr

/-- The coordinator's handle (`DDB` struct): the API — determinized as a
function of the request and the 1-based attempt number — the token
generator (Go's is a random `ksuid`; the model takes it as an oracle),
the maximum attempt count and the timeout progression. -/
structure DDB where
  api : TxWriteInput → Nat → Except GoErr TxOutput
  tokenFunc : Unit → String
  txAttempts : Nat
  txTimeout : Nat → Nat

/-- `New`: defaults for attempts and timeout. -/
def New (api : TxWriteInput → Nat → Except GoErr TxOutput)
    (tokenFunc : Unit → String) : DDB :=
  { api := api, tokenFunc := tokenFunc, txAttempts := defaultMaxAttempts,
    txTimeout := getTimeout }

/-- `WithTransactAttempts` (`ddb.go` lines 153-163): panics — modelled as
`Except.error` of the panic message — exactly when `n < 0 || n >= 10`;
otherwise a copy of the handle with `txAttempts = n`. -/
def DDB.WithTransactAttempts (d : DDB) (n : Int) : Except String DDB :=
  if n < 0 ∨ 10 ≤ n then
    .error ("WithTransactAttempts requires 0 < n < 10: got " ++ toString n)
  else
    .ok { api := d.api, tokenFunc := d.tokenFunc, txAttempts := n.toNat,
          txTimeout := d.txTimeout }

/-- The inner reasons scan of `TransactWriteItemsWithContext`: retry iff
the error is a cancellation whose reasons include a conflict code. -/
def writeRetryable : GoErr → Bool
  | .awsCanceled reasons _ =>
    reasons.any (fun r =>
      match r with
      | some code => code == "TransactionConflictException" || code == "TransactionConflict"
      | none => false)
  | _ => false

/-- The retry loop of `TransactWriteItemsWithContext` (`ddb.go` lines
249-295): attempts run while `attempt <= maxAttempts`; a success returns
the output; a retryable failure waits `txTimeout attempt` (time itself is
not observable here; the context is never cancelled) and continues with
`e` set to that failure; any other failure returns immediately.  The third
component records the request sent on each API invocation, in order. -/
def twLoop (api : TxWriteInput → Nat → Except GoErr TxOutput)
    (input : TxWriteInput) (maxAttempts attempt : Nat) (e : Option GoErr) :
    Option TxOutput × Option GoErr × List TxWriteInput :=
  if attempt ≤ maxAttempts then
    match api input attempt with
    | .ok output => (some output, none, [input])
    | .error err =>
      if writeRetryable err then
        let r := twLoop api input maxAttempts (attempt + 1) (some err)
        (r.1, r.2.1, input :: r.2.2)
      else
        (none, some err, [input])
  else
    (none, e, [])
termination_by maxAttempts + 1 - attempt
decreasing_by omega

/-- Collect the items' `Tx()` results in order, stopping at the first
failure (the `for _, item := range items` loop before the retry loop). -/
def collectTxs : List (Except GoErr TxWriteItem) → Except GoErr (List TxWriteItem)
  | [] => .ok []
  | .error e :: _ => .error e
  | .ok item :: rest =>
    match collectTxs rest with
    | .error e => .error e
    | .ok items => .ok (item :: items)

/-- `DDB.TransactWriteItemsWithContext`: generate one request token, build
the request once from the items' `Tx()` results (an item failure aborts
before any API call), then run the retry loop from attempt 1. -/
def DDB.TransactWriteItemsWithContext (d : DDB)
    (items : List (Except GoErr TxWriteItem)) :
    Option TxOutput × Option GoErr × List TxWriteInput :=
  let token := d.tokenFunc ()
  match collectTxs items with
  | .error err => (none, some err, [])
  | .ok txItems =>
    twLoop d.api { ClientRequestToken := token, TransactItems := txItems }
      d.txAttempts 1 none

/-! ## Helper lemmas -/

/-- The doubling loop multiplies by `2^n`. -/
theorem doubleLoop_eq (n : Nat) : ∀ d, doubleLoop n d = d * 2 ^ n := by
  induction n with
  | zero => intro d; simp [doubleLoop]
  | succ n ih =>
    intro d
    rw [doubleLoop, ih, pow_succ]
    ring

/-! ## Claims -/

/-- C8 counterexample: the default timeout before retrying attempt 1 is
200ms, not the claimed `100ms * 2^(1-1) = 100ms`. -/
theorem getTimeout_first_attempt_cex :
    getTimeout 1 = 200 ∧ getTimeout 1 ≠ 100 * 2 ^ (1 - 1) := by
  constructor <;> decide

/-- C8 (amended): the default retry backoff doubles starting from
`2 * 100ms`: for every attempt `n ≥ 0` the default timeout function
returns `100ms * 2^n` (so the wait before retrying attempt 1 is 200ms,
attempt 2 is 400ms, ...); the default maximum attempt count is 4. -/
theorem getTimeout_exponential :
    (∀ n, getTimeout n = 100 * 2 ^ n) ∧ defaultMaxAttempts = 4 := by
  refine ⟨fun n => ?_, rfl⟩
  rw [getTimeout, doubleLoop_eq]
  rfl

/-- C10: `WithTransactAttempts` panics exactly when `n < 0` or `n ≥ 10`,
so `n = 0` is accepted (although the panic message demands `0 < n < 10`,
which `0` violates); and a coordinator configured with 0 attempts returns
a nil output and nil error without any API invocation whenever the items'
`Tx()` calls all succeed. -/
theorem withTransactAttempts_zero :
    (∀ (d : DDB) (n : Int),
      (∃ msg, d.WithTransactAttempts n = .error msg) ↔ (n < 0 ∨ 10 ≤ n)) ∧
    (∀ d : DDB, d.WithTransactAttempts 0 =
      .ok { api := d.api, tokenFunc := d.tokenFunc, txAttempts := 0,
            txTimeout := d.txTimeout }) ∧
    ¬((0 : Int) < 0 ∧ (0 : Int) < 10) ∧
    (∀ (d : DDB) (items : List (Except GoErr TxWriteItem)) (txs : List TxWriteItem),
      d.txAttempts = 0 → collectTxs items = .ok txs → items ≠ [] →
      d.TransactWriteItemsWithContext items = (none, none, [])) := by
  refine ⟨fun d n => ?_, fun d => ?_, by omega, fun d items txs h0 hok _ => ?_⟩
  · constructor
    · intro ⟨msg, hmsg⟩
      by_contra hc
      rw [DDB.WithTransactAttempts, if_neg hc] at hmsg
      exact Except.noConfusion hmsg
    · intro h
      exact ⟨_, by rw [DDB.WithTransactAttempts, if_pos h]⟩
  · rw [DDB.WithTransactAttempts, if_neg (by omega)]
    rfl
  · rw [DDB.TransactWriteItemsWithContext, hok, h0]
    unfold twLoop
    simp

/-- C10 witness: a coordinator with 0 attempts on one valid write item. -/
theorem withTransactAttempts_zero_witness :
    (DDB.TransactWriteItemsWithContext
      { api := fun _ _ => .ok ⟨0⟩, tokenFunc := fun _ => "token",
        txAttempts := 0, txTimeout := getTimeout }
      [.ok ⟨"item"⟩]) = (none, none, []) := by
  exact withTransactAttempts_zero.2.2.2 _ [.ok ⟨"item"⟩] [⟨"item"⟩] rfl rfl
    (by simp)

/-- Every request the retry loop sends is the single input built before
the loop. -/
theorem twLoop_mem_calls (api : TxWriteInput → Nat → Except GoErr TxOutput)
    (input : TxWriteInput) :
    ∀ (fuel m a : Nat) (e : Option GoErr), m + 1 - a = fuel →
      ∀ inp ∈ (twLoop api input m a e).2.2, inp = input := by
  intro fuel
  induction fuel with
  | zero =>
    intro m a e hf inp hmem
    unfold twLoop at hmem
    rw [if_neg (by omega)] at hmem
    simp at hmem
  | succ n ih =>
    intro m a e hf inp hmem
    unfold twLoop at hmem
    by_cases ham : a ≤ m
    · rw [if_pos ham] at hmem
      cases hapi : api input a with
      | ok output =>
        rw [hapi] at hmem
        simp at hmem
        simp [hmem]
      | error err =>
        rw [hapi] at hmem
        dsimp only at hmem
        by_cases hretry : writeRetryable err = true
        · rw [if_pos hretry] at hmem
          simp at hmem
          rcases hmem with h | h
          · simp [h]
          · exact ih m (a + 1) (some err) (by omega) inp h
        · rw [if_neg hretry] at hmem
          simp at hmem
          simp [hmem]
    · rw [if_neg ham] at hmem
      simp at hmem

/-- The retry loop makes at most `maxAttempts + 1 - attempt` calls. -/
theorem twLoop_len (api : TxWriteInput → Nat → Except GoErr TxOutput)
    (input : TxWriteInput) :
    ∀ (fuel m a : Nat) (e : Option GoErr), m + 1 - a = fuel →
      (twLoop api input m a e).2.2.length ≤ m + 1 - a := by
  intro fuel
  induction fuel with
  | zero =>
    intro m a e hf
    unfold twLoop
    rw [if_neg (by omega)]
    simp
  | succ n ih =>
    intro m a e hf
    unfold twLoop
    by_cases ham : a ≤ m
    · rw [if_pos ham]
      cases hapi : api input a with
      | ok output => simp; omega
      | error err =>
        dsimp only
        by_cases hretry : writeRetryable err = true
        · rw [if_pos hretry]
          simp
          have := ih m (a + 1) (some err) (by omega)
          omega
        · rw [if_neg hretry]
          simp; omega
    · rw [if_neg ham]
      simp

/-- If every remaining attempt fails with a retryable conflict, the loop
exhausts all attempts and returns the error of the final one. -/
theorem twLoop_all_conflict (api : TxWriteInput → Nat → Except GoErr TxOutput)
    (input : TxWriteInput) (f : Nat → GoErr) :
    ∀ (fuel m a : Nat) (e : Option GoErr), m + 1 - a = fuel → a ≤ m →
      (∀ j, a ≤ j → j ≤ m → api input j = .error (f j) ∧ writeRetryable (f j) = true) →
      twLoop api input m a e = (none, some (f m), List.replicate (m + 1 - a) input) := by
  intro fuel
  induction fuel with
  | zero => intro m a e hf ham hall; omega
  | succ n ih =>
    intro m a e hf ham hall
    obtain ⟨hapi, hretry⟩ := hall a (le_refl a) ham
    unfold twLoop
    rw [if_pos ham, hapi]
    dsimp only
    rw [if_pos hretry]
    by_cases hend : a = m
    · subst hend
      have : twLoop api input a a.succ (some (f a)) = (none, some (f a), []) := by
        unfold twLoop
        rw [if_neg (by omega)]
      rw [this]
      simp [List.replicate, show a + 1 - a = 1 by omega]
    · have hrec := ih m (a + 1) (some (f a)) (by omega) (by omega)
        (fun j hj1 hj2 => hall j (by omega) hj2)
      rw [hrec]
      have : m + 1 - a = (m + 1 - (a + 1)) + 1 := by omega
      rw [this, List.replicate_succ]

/-- A non-retryable failure at attempt `k`, after retryable failures on
every earlier attempt, stops the loop at exactly `k` calls with that
error. -/
theorem twLoop_stop (api : TxWriteInput → Nat → Except GoErr TxOutput)
    (input : TxWriteInput) (err : GoErr) :
    ∀ (fuel m a k : Nat) (e : Option GoErr), m + 1 - a = fuel →
      a ≤ k → k ≤ m → api input k = .error err → writeRetryable err = false →
      (∀ j, a ≤ j → j < k → ∃ e', api input j = .error e' ∧ writeRetryable e' = true) →
      twLoop api input m a e = (none, some err, List.replicate (k + 1 - a) input) := by
  intro fuel
  induction fuel with
  | zero => intro m a k e hf hak hkm hk hnr hpre; omega
  | succ n ih =>
    intro m a k e hf hak hkm hk hnr hpre
    unfold twLoop
    rw [if_pos (by omega)]
    by_cases hfirst : a = k
    · subst hfirst
      rw [hk]
      dsimp only
      rw [if_neg (by simp [hnr])]
      simp [show a + 1 - a = 1 by omega, List.replicate]
    · obtain ⟨e', he', hr'⟩ := hpre a (le_refl a) (by omega)
      rw [he']
      dsimp only
      rw [if_pos hr']
      have hrec := ih m (a + 1) k (some e') (by omega) (by omega) hkm hk hnr
        (fun j hj1 hj2 => hpre j (by omega) hj2)
      rw [hrec]
      have : k + 1 - a = (k + 1 - (a + 1)) + 1 := by omega
      rw [this, List.replicate_succ]

/-- C7: transactional writes — one idempotency token per logical
submission, attached unchanged to every attempt; at most `txAttempts`
attempts (4 on a `New` handle); an attempt failing with a cancellation
whose reasons include a conflict code is retried, while any other failure
ends the run immediately with that error after its attempt; exhausting
all attempts on conflicts returns the last conflict error observed. -/
theorem transactWrite_conflict_retry (d : DDB)
    (items : List (Except GoErr TxWriteItem)) (txs : List TxWriteItem)
    (hok : collectTxs items = .ok txs) :
    (∀ inp ∈ (d.TransactWriteItemsWithContext items).2.2,
      inp.ClientRequestToken = d.tokenFunc ()) ∧
    (d.TransactWriteItemsWithContext items).2.2.length ≤ d.txAttempts ∧
    (∀ api tf, (New api tf).txAttempts = 4) ∧
    (∀ k err, 1 ≤ k → k ≤ d.txAttempts →
      d.api ⟨d.tokenFunc (), txs⟩ k = .error err → writeRetryable err = false →
      (∀ j, 1 ≤ j → j < k →
        ∃ e', d.api ⟨d.tokenFunc (), txs⟩ j = .error e' ∧ writeRetryable e' = true) →
      d.TransactWriteItemsWithContext items =
        (none, some err, List.replicate k ⟨d.tokenFunc (), txs⟩)) ∧
    (∀ f : Nat → GoErr, 1 ≤ d.txAttempts →
      (∀ j, 1 ≤ j → j ≤ d.txAttempts →
        d.api ⟨d.tokenFunc (), txs⟩ j = .error (f j) ∧ writeRetryable (f j) = true) →
      d.TransactWriteItemsWithContext items =
        (none, some (f d.txAttempts),
          List.replicate d.txAttempts ⟨d.tokenFunc (), txs⟩)) := by
  have hrun : d.TransactWriteItemsWithContext items =
      twLoop d.api ⟨d.tokenFunc (), txs⟩ d.txAttempts 1 none := by
    rw [DDB.TransactWriteItemsWithContext, hok]
  refine ⟨?_, ?_, fun api tf => rfl, ?_, ?_⟩
  · intro inp hmem
    rw [hrun] at hmem
    have := twLoop_mem_calls d.api ⟨d.tokenFunc (), txs⟩ (d.txAttempts + 1 - 1)
      d.txAttempts 1 none rfl inp hmem
    rw [this]
  · rw [hrun]
    have := twLoop_len d.api ⟨d.tokenFunc (), txs⟩ (d.txAttempts + 1 - 1)
      d.txAttempts 1 none rfl
    omega
  · intro k err h1 h2 herr hnr hpre
    rw [hrun]
    exact twLoop_stop d.api ⟨d.tokenFunc (), txs⟩ err (d.txAttempts + 1 - 1)
      d.txAttempts 1 k none rfl h1 h2 herr hnr hpre
  · intro f h1 hall
    rw [hrun]
    exact twLoop_all_conflict d.api ⟨d.tokenFunc (), txs⟩ f (d.txAttempts + 1 - 1)
      d.txAttempts 1 none rfl h1 hall

/-- C7 witness: with 4 attempts, an API that conflicts on attempt 1 and
fails validation on attempt 2 makes exactly 2 calls carrying the same
token and returns the validation error. -/
theorem transactWrite_conflict_retry_witness :
    (DDB.TransactWriteItemsWithContext
      { api := fun _ n => if n = 1
          then .error (.awsCanceled [some "TransactionConflict"] "conflict")
          else .error (.awsOther "validation"),
        tokenFunc := fun _ => "tok", txAttempts := 4, txTimeout := getTimeout }
      [.ok ⟨"w1"⟩]) =
      (none, some (.awsOther "validation"),
        List.replicate 2 ⟨"tok", [⟨"w1"⟩]⟩) := by
  exact (transactWrite_conflict_retry
    { api := fun _ n => if n = 1
        then .error (.awsCanceled [some "TransactionConflict"] "conflict")
        else .error (.awsOther "validation"),
      tokenFunc := fun _ => "tok", txAttempts := 4, txTimeout := getTimeout }
    [.ok ⟨"w1"⟩] [⟨"w1"⟩] rfl).2.2.2.1 2 (.awsOther "validation")
    (by omega) (by decide) rfl rfl
    (fun j hj1 hj2 => ⟨.awsCanceled [some "TransactionConflict"] "conflict", by
      have hj : j = 1 := by omega
      subst hj
      rfl, rfl⟩)


/-- C9: decoding an empty transactional-get response item returns a
structured `ItemNotFound` error whose hash key, range key and table name
are recomputed from the original request item - the reported hash key is
the marshalled key that was sent in the request, not a default value. -/
theorem getTx_decode_not_found (g : Get) (ks : keySpec) (hkv rkv : AttributeValue)
    (h1 : g.spec.HashKey = some ks)
    (h2 : marshal g.hashKey = .ok hkv)
    (h3 : marshal g.rangeKey = .ok rkv)
    (h4 : ∀ kr, g.spec.RangeKey = some kr → kr.AttributeName ≠ ks.AttributeName) :
    ∃ tx, g.Tx = .ok tx ∧
      mapLookup tx.Key ks.AttributeName = some hkv ∧
      ∃ err, g.Decode [] = some err ∧
        err.Keys.1 = some hkv ∧
        err.Keys.2 = g.spec.RangeKey.map (fun _ => rkv) ∧
        err.tblName = g.spec.TableName ∧
        IsItemNotFoundError err = true := by
  rcases hR : g.spec.RangeKey with _ | kr
  · have hkey : makeKey g.spec g.hashKey g.rangeKey =
        .ok [(ks.AttributeName, hkv)] := by
      rw [makeKey, h2, h3, h1, hR]
      rfl
    have hTx : g.Tx = .ok ⟨[(ks.AttributeName, hkv)], g.spec.TableName⟩ := by
      rw [Get.Tx, hkey]
    have hlook1 : mapLookup [(ks.AttributeName, hkv)] ks.AttributeName = some hkv := by
      rw [mapLookup, if_pos (beq_self_eq_true ks.AttributeName)]
    have hmeta : getMetadata [(ks.AttributeName, hkv)] g.spec =
        (some hkv, none, g.spec.TableName) := by
      rw [getMetadata, h1, hR]
      simp [hlook1]
    refine ⟨_, hTx, hlook1, ?_⟩
    rw [Get.Decode]
    simp only [List.length_nil, if_pos]
    rw [hTx]
    dsimp only
    rw [hmeta]
    exact ⟨_, rfl, rfl, rfl, rfl,
      by simp [notFoundError, IsItemNotFoundError, hasError]⟩
  · have hne : (ks.AttributeName == kr.AttributeName) = false := by
      simp only [beq_eq_false_iff_ne, ne_eq]
      intro hc
      exact h4 kr hR hc.symm
    have hkey : makeKey g.spec g.hashKey g.rangeKey =
        .ok [(ks.AttributeName, hkv), (kr.AttributeName, rkv)] := by
      rw [makeKey, h2, h3, h1, hR]
      dsimp only
      rw [mapInsert, mapInsert]
      simp [hne]
    have hTx : g.Tx =
        .ok ⟨[(ks.AttributeName, hkv), (kr.AttributeName, rkv)], g.spec.TableName⟩ := by
      rw [Get.Tx, hkey]
    have hlook1 : mapLookup [(ks.AttributeName, hkv), (kr.AttributeName, rkv)]
        ks.AttributeName = some hkv := by
      rw [mapLookup, if_pos (beq_self_eq_true ks.AttributeName)]
    have hlook2 : mapLookup [(ks.AttributeName, hkv), (kr.AttributeName, rkv)]
        kr.AttributeName = some rkv := by
      rw [mapLookup, if_neg (by simp [hne]), mapLookup,
        if_pos (beq_self_eq_true kr.AttributeName)]
    have hmeta : getMetadata [(ks.AttributeName, hkv), (kr.AttributeName, rkv)]
        g.spec = (some hkv, some rkv, g.spec.TableName) := by
      rw [getMetadata, h1, hR]
      simp [hlook1, hlook2]
    refine ⟨_, hTx, hlook1, ?_⟩
    rw [Get.Decode]
    simp only [List.length_nil, if_pos]
    rw [hTx]
    dsimp only
    rw [hmeta]
    exact ⟨_, rfl, rfl, rfl, rfl,
      by simp [notFoundError, IsItemNotFoundError, hasError]⟩

/-- C9 witness: a hash-only get for key "abc" on table "tbl". -/
theorem getTx_decode_not_found_witness :
    ∃ tx, Get.Tx ⟨⟨"tbl", some ⟨"id", "S"⟩, none, []⟩, .str "abc", .nilVal⟩ = .ok tx ∧
      mapLookup tx.Key "id" = some (.S "abc") ∧
      ∃ err, Get.Decode ⟨⟨"tbl", some ⟨"id", "S"⟩, none, []⟩, .str "abc", .nilVal⟩ []
          = some err ∧
        err.Keys.1 = some (.S "abc") ∧
        err.Keys.2 = none ∧
        err.tblName = "tbl" ∧
        IsItemNotFoundError err = true := by
  have h := getTx_decode_not_found
    ⟨⟨"tbl", some ⟨"id", "S"⟩, none, []⟩, .str "abc", .nilVal⟩
    ⟨"id", "S"⟩ (.S "abc") .NULL rfl rfl rfl (fun kr hk => by simp at hk)
  simpa using h



/-- C6 counterexample: two failing clause calls on one `Update` record
the SECOND error, and the terminal call surfaces that second error, not
the first — "first error wins, later calls are no-ops" fails on the
code. -/
theorem update_error_overwrite_cex :
    (((newUpdate ⟨"tbl", some ⟨"id", "S"⟩, none, []⟩ (.str "h")).applyClause
        (.set "#a = ?".data [])).err =
      some (errorf ErrMismatchedValueCount "not enough values")) ∧
    ((((newUpdate ⟨"tbl", some ⟨"id", "S"⟩, none, []⟩ (.str "h")).applyClause
        (.set "#a = ?".data [])).applyClause (.set "b".data [.str "x"])).err =
      some (.fmtErr "mismatched number of values; got 1, want 0")) ∧
    some (.fmtErr "mismatched number of values; got 1, want 0") ≠
      some (errorf ErrMismatchedValueCount "not enough values") ∧
    ((((newUpdate ⟨"tbl", some ⟨"id", "S"⟩, none, []⟩ (.str "h")).applyClause
        (.set "#a = ?".data [])).applyClause
        (.set "b".data [.str "x"])).RunWithContext (fun _ => .ok ()) =
      some (.fmtErr "mismatched number of values; got 1, want 0")) := by
  refine ⟨by decide, by decide, by decide, by decide⟩

/-- C6 (amended): a failing builder call records its error, but each
later failing call overwrites the record (last error wins); later calls
are not no-ops — they keep mutating the owned expression, and successful
calls leave the record in place; the terminal call surfaces the most
recently recorded error. -/
theorem update_last_error_wins (u : Update) (c : ClauseCall) :
    (∀ err, (u.expr.applyCall c).2 = some err → (u.applyClause c).err = some err) ∧
    ((u.expr.applyCall c).2 = none → (u.applyClause c).err = u.err) ∧
    ((u.applyClause c).expr = (u.expr.applyCall c).1) ∧
    (∀ e api, u.err = some e → u.RunWithContext api = some e) := by
  refine ⟨?_, ?_, ?_, ?_⟩
  · intro err herr
    rw [Update.applyClause]
    rcases hc : u.expr.applyCall c with ⟨e', err'⟩
    rw [hc] at herr
    simp at herr
    rw [herr]
  · intro hok
    rw [Update.applyClause]
    rcases hc : u.expr.applyCall c with ⟨e', err'⟩
    rw [hc] at hok
    simp at hok
    rw [hok]
  · rw [Update.applyClause]
    rcases hc : u.expr.applyCall c with ⟨e', err'⟩
    cases err' <;> rfl
  · intro e api he
    rw [Update.RunWithContext, he]

/-- C6 witness: concrete instances of the overwrite, no-op-failure and
terminal-surface clauses. -/
theorem update_last_error_wins_witness :
    ((Update.applyClause (newUpdate ⟨"t", some ⟨"id", "S"⟩, none, []⟩ (.str "h"))
      (.set "x".data [.str "v"])).err =
        some (.fmtErr "mismatched number of values; got 1, want 0")) ∧
    (Update.RunWithContext
      { spec := ⟨"t", some ⟨"id", "S"⟩, none, []⟩, hashKey := .str "h",
        rangeKey := .nilVal, err := some (errorf ErrMismatchedValueCount "boom"),
        expr := newExpression [], newValues := false, oldValues := false }
      (fun _ => .ok ()) = some (errorf ErrMismatchedValueCount "boom")) := by
  constructor
  · exact (update_last_error_wins (newUpdate ⟨"t", some ⟨"id", "S"⟩, none, []⟩ (.str "h"))
      (.set "x".data [.str "v"])).1 _ (by decide)
  · exact (update_last_error_wins
      { spec := ⟨"t", some ⟨"id", "S"⟩, none, []⟩, hashKey := .str "h",
        rangeKey := .nilVal, err := some (errorf ErrMismatchedValueCount "boom"),
        expr := newExpression [], newValues := false, oldValues := false }
      (.set "x".data [])).2.2.2 _ _ rfl



/-- C1 counterexample: with schema field `ID` / wire name `id`, referring
to the attribute first by wire name (`#id`) and then by field name
(`#ID`) — both resolving to the real name `id` — renders two DIFFERENT
aliases and leaves two `Names` entries for the real name `id`. -/
theorem alias_stability_cex :
    ((newExpression [⟨"ID", "id", "S"⟩]).Condition "#id = 1".data []).2 = none ∧
    (((newExpression [⟨"ID", "id", "S"⟩]).Condition "#id = 1".data []).1.Condition
      "#ID = 2".data []).2 = none ∧
    (((newExpression [⟨"ID", "id", "S"⟩]).Condition "#id = 1".data []).1.Condition
      "#ID = 2".data []).1.Names = [("#n1", "id"), ("#n2", "id")] ∧
    ((((newExpression [⟨"ID", "id", "S"⟩]).Condition "#id = 1".data []).1.Condition
      "#ID = 2".data []).1.Names.countP (fun kv => kv.2 == "id")) = 2 ∧
    (((newExpression [⟨"ID", "id", "S"⟩]).Condition "#id = 1".data []).1.Condition
      "#ID = 2".data []).1.Conditions = some "#n1 = 1 and #n2 = 2".data := by
  refine ⟨by decide, by decide, by decide, by decide, by decide⟩

/-- C1 (amended): an occurrence of a `#name` reference reuses an existing
alias exactly when the raw token equals the real name already stored for
some alias (and then the maps are untouched); otherwise a fresh alias
`#n<len+1>` is always minted and a new `Names` entry appended — even when
the reference resolves to an already-interned real name — so `Names` can
hold several entries with the same real name. -/
theorem addName_characterization (e : Expr) (name : String) :
    (∀ k, findByValue e.Names name = some k →
      e.addExpressionAttributeName name = (k, e)) ∧
    (∀ attr, findByValue e.Names name = none →
      e.attributes.find? (fun a =>
        name == a.AttributeName || name == a.FieldName) = some attr →
      e.addExpressionAttributeName name =
        ("#n" ++ Nat.repr (e.Names.length + 1),
         { e with Names := e.Names ++
            [("#n" ++ Nat.repr (e.Names.length + 1), attr.AttributeName)] })) ∧
    (findByValue e.Names name = none →
      e.attributes.find? (fun a =>
        name == a.AttributeName || name == a.FieldName) = none →
      e.addExpressionAttributeName name =
        ("#n" ++ Nat.repr (e.Names.length + 1),
         { e with Names := e.Names ++
            [("#n" ++ Nat.repr (e.Names.length + 1), name)] })) := by
  refine ⟨?_, ?_, ?_⟩
  · intro k hk
    rw [Expr.addExpressionAttributeName, hk]
  · intro attr hnone hattr
    rw [Expr.addExpressionAttributeName, hnone]
    dsimp only
    rw [hattr]
  · intro hnone hattr
    rw [Expr.addExpressionAttributeName, hnone]
    dsimp only
    rw [hattr]

/-- C1 witness: reuse on a repeated wire-name reference; fresh alias on a
field-name reference to the already-interned attribute. -/
theorem addName_characterization_witness :
    (Expr.addExpressionAttributeName
      { newExpression [⟨"ID", "id", "S"⟩] with Names := [("#n1", "id")] } "id" =
      ("#n1", { newExpression [⟨"ID", "id", "S"⟩] with Names := [("#n1", "id")] })) ∧
    (Expr.addExpressionAttributeName
      { newExpression [⟨"ID", "id", "S"⟩] with Names := [("#n1", "id")] } "ID" =
      ("#n2", { newExpression [⟨"ID", "id", "S"⟩] with
        Names := [("#n1", "id"), ("#n2", "id")] })) := by
  constructor
  · exact (addName_characterization _ "id").1 "#n1" (by decide)
  · exact (addName_characterization _ "ID").2.1 ⟨"ID", "id", "S"⟩ (by decide) (by decide)

/-- C4 counterexample: with a non-empty attribute schema, a `#foo`
reference matching no known attribute does NOT fail — the clause call
succeeds and the literal name is aliased as-is. -/
theorem strict_resolution_cex :
    ((newExpression [⟨"ID", "id", "S"⟩]).Condition "#foo = 1".data []).2 = none ∧
    ((newExpression [⟨"ID", "id", "S"⟩]).Condition "#foo = 1".data []).1.Names =
      [("#n1", "foo")] := by
  refine ⟨by decide, by decide⟩

/-- C4 (amended): the expression builder never fails on an unresolved
`#ref` — the literal name is accepted as-is whether or not attributes are
registered; the `InvalidFieldName` failure belongs to the legacy
`update.go` resolver, which rejects every `#ref` matching no known
attribute, including (vacuously) every `#ref` when no attributes are
registered. -/
theorem unknown_name_handling (e : Expr) (name : String)
    (attrs : List attributeSpec) (names : List (String × String)) :
    (findByValue e.Names name = none →
      e.attributes.find? (fun a =>
        name == a.AttributeName || name == a.FieldName) = none →
      (e.addExpressionAttributeName name).2.Names =
        e.Names ++ [("#n" ++ Nat.repr (e.Names.length + 1), name)]) ∧
    (attrs.find? (fun a =>
        (name.drop 1) == a.AttributeName || (name.drop 1) == a.FieldName) = none →
      legacySetExpressionAttributeName attrs names name =
        .error (errorf ErrInvalidFieldName ("invalid field name, " ++ name))) ∧
    (legacySetExpressionAttributeName [] names name =
      .error (errorf ErrInvalidFieldName ("invalid field name, " ++ name))) ∧
    (IsInvalidFieldNameError
      (errorf ErrInvalidFieldName ("invalid field name, " ++ name)) = true) := by
  refine ⟨?_, ?_, ?_, ?_⟩
  · intro hnone hattr
    rw [Expr.addExpressionAttributeName, hnone]
    dsimp only
    rw [hattr]
  · intro hattr
    rw [legacySetExpressionAttributeName, hattr]
  · rw [legacySetExpressionAttributeName]
    rfl
  · simp [IsInvalidFieldNameError, hasError, errorf]

/-- C4 witness: literal acceptance in the expression builder; rejection
in the legacy resolver. -/
theorem unknown_name_handling_witness :
    ((Expr.addExpressionAttributeName (newExpression [⟨"ID", "id", "S"⟩]) "foo").2.Names =
      [("#n1", "foo")]) ∧
    (legacySetExpressionAttributeName [⟨"ID", "id", "S"⟩] [] "#foo" =
      .error (errorf ErrInvalidFieldName "invalid field name, #foo")) := by
  constructor
  · exact (unknown_name_handling (newExpression [⟨"ID", "id", "S"⟩]) "foo" [] []).1
      (by decide) (by decide)
  · exact (unknown_name_handling (newExpression []) "#foo" [⟨"ID", "id", "S"⟩] []).2.1
      (by decide)



/-- Value aliases `:v1 .. :vN`. -/
def valueAliases (n : Nat) : List String :=
  (List.range n).map (fun i => ":v" ++ Nat.repr (i + 1))

theorem valueAliases_succ (n : Nat) :
    valueAliases (n + 1) = valueAliases n ++ [":v" ++ Nat.repr (n + 1)] := by
  simp [valueAliases, List.range_succ]

/-- Interning a name never touches the value map or counter. -/
theorem addName_values_index (e : Expr) (name : String) :
    (e.addExpressionAttributeName name).2.Values = e.Values ∧
    (e.addExpressionAttributeName name).2.index = e.index := by
  unfold Expr.addExpressionAttributeName
  split
  · exact ⟨rfl, rfl⟩
  · dsimp only
    split <;> exact ⟨rfl, rfl⟩

/-- The canonical-value-aliases invariant is preserved by `addName`. -/
theorem canonical_addName {e : Expr} (name : String)
    (hP : e.Values.map Prod.fst = valueAliases e.index) :
    (e.addExpressionAttributeName name).2.Values.map Prod.fst =
      valueAliases (e.addExpressionAttributeName name).2.index := by
  rw [(addName_values_index e name).1, (addName_values_index e name).2]
  exact hP

/-- The invariant is preserved (extended) by `addValue`. -/
theorem canonical_addValue {e : Expr} (item : AttributeValue)
    (hP : e.Values.map Prod.fst = valueAliases e.index) :
    (e.addExpressionAttributeValue item).2.Values.map Prod.fst =
      valueAliases (e.addExpressionAttributeValue item).2.index := by
  show (e.Values ++ [(":v" ++ Nat.repr (e.index + 1), item)]).map Prod.fst =
    valueAliases (e.index + 1)
  rw [List.map_append, hP, valueAliases_succ]
  rfl

/-- The parse loop preserves the canonical-value-aliases invariant on
every path, successful or failing. -/
theorem parseGo_canonical (values : List GoValue) (t : Str) (e : Expr)
    (buf bufName : Str) (inName : Bool) (index : Nat)
    (hP : e.Values.map Prod.fst = valueAliases e.index) :
    (parseGo values t e buf bufName inName index).1.Values.map Prod.fst =
      valueAliases (parseGo values t e buf bufName inName index).1.index := by
  induction t generalizing e buf bufName inName index with
  | nil =>
    unfold parseGo
    split
    · exact canonical_addName _ hP
    · exact hP
  | cons v rest ih =>
    unfold parseGo
    by_cases hin : inName
    · rw [if_pos hin]
      by_cases han : isAlphaNumeric v = true
      · rw [if_pos han]
        exact ih _ _ _ _ _ hP
      · rw [if_neg han]
        by_cases hq : v = '?'
        · rw [if_pos hq]
          rcases hvi : values[index]? with _ | gv
          · dsimp only
            exact hP
          · dsimp only
            rcases gv with s | n | a | _ | _
            · exact ih _ _ _ _ _ (canonical_addName _ hP)
            all_goals exact hP
        · rw [if_neg hq]
          dsimp only
          rw [if_neg hq]
          by_cases hh : v = '#'
          · rw [if_pos hh]
            exact ih _ _ _ _ _ (canonical_addName _ hP)
          · rw [if_neg hh]
            exact ih _ _ _ _ _ (canonical_addName _ hP)
    · rw [if_neg hin]
      by_cases hq : v = '?'
      · rw [if_pos hq]
        rcases hvi : values[index]? with _ | gv
        · dsimp only
          exact hP
        · dsimp only
          rcases hmv : marshal gv with msg | item
          · dsimp only
            exact hP
          · dsimp only
            exact ih _ _ _ _ _ (canonical_addValue _ hP)
      · rw [if_neg hq]
        by_cases hh : v = '#'
        · rw [if_pos hh]
          exact ih _ _ _ _ _ hP
        · rw [if_neg hh]
          exact ih _ _ _ _ _ hP


/-- `parse` threads the expression state through unchanged semantics. -/
theorem parse_canonical (e : Expr) (t : Str) (values : List GoValue)
    (hP : e.Values.map Prod.fst = valueAliases e.index) :
    (e.parse t values).1.Values.map Prod.fst =
      valueAliases (e.parse t values).1.index := by
  rw [Expr.parse]
  have h := parseGo_canonical values t e [] [] false 0 hP
  rcases hpg : parseGo values t e [] [] false 0 with ⟨e', r⟩
  rw [hpg] at h
  rcases r with err | ⟨buf, index⟩
  · exact h
  · dsimp only
    split
    · exact h
    · exact h

/-- `append` returns the state `parse` produced. -/
theorem appendClause_fst (e : Expr) (buf : Str) (kw : String) (sep t : Str)
    (values : List GoValue) :
    (e.appendClause buf kw sep t values).1 = (e.parse t values).1 := by
  rw [Expr.appendClause]
  rcases h : e.parse t values with ⟨e', r⟩
  rcases r with err | rendered <;> rfl

/-- Every clause-building call preserves the canonical-value-aliases
invariant. -/
theorem applyCall_canonical (e : Expr) (c : ClauseCall)
    (hP : e.Values.map Prod.fst = valueAliases e.index) :
    (e.applyCall c).1.Values.map Prod.fst =
      valueAliases (e.applyCall c).1.index := by
  cases c with
  | add t vs =>
    show ((e.Add t vs).1.Values.map Prod.fst = valueAliases (e.Add t vs).1.index)
    rw [Expr.Add]
    rcases h : e.appendClause (e.Adds.getD []) "Add" comma t vs with ⟨e', r⟩
    have hfst := appendClause_fst e (e.Adds.getD []) "Add" comma t vs
    rw [h] at hfst
    dsimp only at hfst
    rcases r with err | buf' <;> dsimp only <;>
      (show e'.Values.map Prod.fst = valueAliases e'.index
       rw [hfst]
       exact parse_canonical e t vs hP)
  | condition t vs =>
    show ((e.Condition t vs).1.Values.map Prod.fst =
      valueAliases (e.Condition t vs).1.index)
    rw [Expr.Condition]
    rcases h : e.appendClause (e.Conditions.getD []) "" " and ".data t vs with ⟨e', r⟩
    have hfst := appendClause_fst e (e.Conditions.getD []) "" " and ".data t vs
    rw [h] at hfst
    dsimp only at hfst
    rcases r with err | buf' <;> dsimp only <;>
      (show e'.Values.map Prod.fst = valueAliases e'.index
       rw [hfst]
       exact parse_canonical e t vs hP)
  | delete t vs =>
    show ((e.Delete t vs).1.Values.map Prod.fst = valueAliases (e.Delete t vs).1.index)
    rw [Expr.Delete]
    rcases h : e.appendClause (e.Deletes.getD []) "Delete" comma t vs with ⟨e', r⟩
    have hfst := appendClause_fst e (e.Deletes.getD []) "Delete" comma t vs
    rw [h] at hfst
    dsimp only at hfst
    rcases r with err | buf' <;> dsimp only <;>
      (show e'.Values.map Prod.fst = valueAliases e'.index
       rw [hfst]
       exact parse_canonical e t vs hP)
  | filter t vs =>
    show ((e.Filter t vs).1.Values.map Prod.fst = valueAliases (e.Filter t vs).1.index)
    rw [Expr.Filter]
    rcases h : e.appendClause (e.Filters.getD []) "" " and ".data t vs with ⟨e', r⟩
    have hfst := appendClause_fst e (e.Filters.getD []) "" " and ".data t vs
    rw [h] at hfst
    dsimp only at hfst
    rcases r with err | buf' <;> dsimp only <;>
      (show e'.Values.map Prod.fst = valueAliases e'.index
       rw [hfst]
       exact parse_canonical e t vs hP)
  | remove t vs =>
    show ((e.Remove t vs).1.Values.map Prod.fst = valueAliases (e.Remove t vs).1.index)
    rw [Expr.Remove]
    rcases h : e.appendClause (e.Removes.getD []) "Remove" comma t vs with ⟨e', r⟩
    have hfst := appendClause_fst e (e.Removes.getD []) "Remove" comma t vs
    rw [h] at hfst
    dsimp only at hfst
    rcases r with err | buf' <;> dsimp only <;>
      (show e'.Values.map Prod.fst = valueAliases e'.index
       rw [hfst]
       exact parse_canonical e t vs hP)
  | set t vs =>
    show ((e.Set t vs).1.Values.map Prod.fst = valueAliases (e.Set t vs).1.index)
    rw [Expr.Set]
    rcases h : e.appendClause (e.Sets.getD []) "Set" comma t vs with ⟨e', r⟩
    have hfst := appendClause_fst e (e.Sets.getD []) "Set" comma t vs
    rw [h] at hfst
    dsimp only at hfst
    rcases r with err | buf' <;> dsimp only <;>
      (show e'.Values.map Prod.fst = valueAliases e'.index
       rw [hfst]
       exact parse_canonical e t vs hP)

/-- The invariant holds after any call sequence from a fresh expression. -/
theorem applyCalls_canonical (calls : List ClauseCall) :
    ∀ e : Expr, e.Values.map Prod.fst = valueAliases e.index →
      (e.applyCalls calls).Values.map Prod.fst =
        valueAliases (e.applyCalls calls).index := by
  induction calls with
  | nil => intro e h; exact h
  | cons c cs ih =>
    intro e h
    show ((e.applyCall c).1.applyCalls cs).Values.map Prod.fst = _
    exact ih _ (applyCall_canonical e c h)

/-- C2: across any sequence of clause-building calls on one expression,
the value aliases are exactly `:v1 .. :vN` in bind order, where `N` is
the number of values bound (no gaps, no reuse, no deduplication — the
alias list is the full canonical range regardless of value equality). -/
theorem value_alias_monotonicity (attrs : List attributeSpec)
    (calls : List ClauseCall) :
    ((newExpression attrs).applyCalls calls).Values.map Prod.fst =
      valueAliases ((newExpression attrs).applyCalls calls).index ∧
    ((newExpression attrs).applyCalls calls).index =
      ((newExpression attrs).applyCalls calls).Values.length := by
  have h := applyCalls_canonical calls (newExpression attrs) rfl
  refine ⟨h, ?_⟩
  have hlen := congrArg List.length h
  simp [valueAliases] at hlen
  omega



/-- Template of a clause call. -/
def ClauseCall.template : ClauseCall → Str
  | .add t _ | .condition t _ | .delete t _ | .filter t _ | .remove t _ | .set t _ => t

/-- Arguments of a clause call. -/
def ClauseCall.args : ClauseCall → List GoValue
  | .add _ vs | .condition _ vs | .delete _ vs | .filter _ vs | .remove _ vs
  | .set _ vs => vs

/-- A clause call fails exactly with the error its `parse` produced. -/
theorem applyCall_err (e : Expr) (c : ClauseCall) :
    (e.applyCall c).2 = match (e.parse c.template c.args).2 with
      | .error err => some err
      | .ok _ => none := by
  cases c with
  | add t vs =>
    show (e.Add t vs).2 = match (e.parse t vs).2 with
      | .error err => some err
      | .ok _ => none
    rw [Expr.Add, Expr.appendClause]
    rcases h : e.parse t vs with ⟨e', r⟩
    rcases r with err | rendered <;> rfl
  | condition t vs =>
    show (e.Condition t vs).2 = match (e.parse t vs).2 with
      | .error err => some err
      | .ok _ => none
    rw [Expr.Condition, Expr.appendClause]
    rcases h : e.parse t vs with ⟨e', r⟩
    rcases r with err | rendered <;> rfl
  | delete t vs =>
    show (e.Delete t vs).2 = match (e.parse t vs).2 with
      | .error err => some err
      | .ok _ => none
    rw [Expr.Delete, Expr.appendClause]
    rcases h : e.parse t vs with ⟨e', r⟩
    rcases r with err | rendered <;> rfl
  | filter t vs =>
    show (e.Filter t vs).2 = match (e.parse t vs).2 with
      | .error err => some err
      | .ok _ => none
    rw [Expr.Filter, Expr.appendClause]
    rcases h : e.parse t vs with ⟨e', r⟩
    rcases r with err | rendered <;> rfl
  | remove t vs =>
    show (e.Remove t vs).2 = match (e.parse t vs).2 with
      | .error err => some err
      | .ok _ => none
    rw [Expr.Remove, Expr.appendClause]
    rcases h : e.parse t vs with ⟨e', r⟩
    rcases r with err | rendered <;> rfl
  | set t vs =>
    show (e.Set t vs).2 = match (e.parse t vs).2 with
      | .error err => some err
      | .ok _ => none
    rw [Expr.Set, Expr.appendClause]
    rcases h : e.parse t vs with ⟨e', r⟩
    rcases r with err | rendered <;> rfl

/-- On a template without `#` name tokens whose arguments all marshal,
the parse loop consumes one argument per `?`: it succeeds consuming
exactly `count` arguments when enough are supplied, and fails with the
coded `MismatchedValueCount` error when they run out. -/
theorem parseGo_no_hash (values : List GoValue)
    (hm : ∀ v ∈ values, ∃ item, marshal v = .ok item) :
    ∀ (t : Str) (e : Expr) (buf : Str) (index : Nat),
      '#' ∉ t → index ≤ values.length →
      (index + t.count '?' ≤ values.length →
        ∃ e' buf', parseGo values t e buf [] false index =
          (e', .ok (buf', index + t.count '?'))) ∧
      (values.length < index + t.count '?' →
        ∃ e', parseGo values t e buf [] false index =
          (e', .error (errorf ErrMismatchedValueCount "not enough values"))) := by
  intro t
  induction t with
  | nil =>
    intro e buf index hnh hidx
    refine ⟨fun _ => ⟨e, buf, rfl⟩, fun hlt => ?_⟩
    simp [List.count_nil] at hlt
    omega
  | cons v rest ih =>
    intro e buf index hnh hidx
    have hvnh : v ≠ '#' := fun hc => hnh (hc ▸ List.mem_cons_self v rest)
    have hrnh : '#' ∉ rest := fun hc => hnh (List.mem_cons_of_mem v hc)
    by_cases hq : v = '?'
    · subst hq
      have hcount : ('?' :: rest).count '?' = rest.count '?' + 1 := by
        simp [List.count_cons]
      rw [hcount]
      by_cases hlen : index < values.length
      · have hsome : values[index]? = some values[index] :=
          List.getElem?_eq_getElem hlen
        obtain ⟨item, hitem⟩ := hm values[index] (List.getElem?_mem hsome)
        have hrec := ih ((e.addExpressionAttributeValue item).2)
          (buf ++ (e.addExpressionAttributeValue item).1.data) (index + 1)
          hrnh (by omega)
        constructor
        · intro hle
          obtain ⟨e', buf', hok⟩ := hrec.1 (by omega)
          refine ⟨e', buf', ?_⟩
          unfold parseGo
          dsimp only
          rw [if_neg Bool.false_ne_true, if_pos rfl, hsome]
          dsimp only
          rw [hitem]
          dsimp only
          rw [show index + 1 + List.count '?' rest =
            index + (List.count '?' rest + 1) from by omega] at hok
          rw [hok]
        · intro hlt
          obtain ⟨e', herr⟩ := hrec.2 (by omega)
          refine ⟨e', ?_⟩
          unfold parseGo
          dsimp only
          rw [if_neg Bool.false_ne_true, if_pos rfl, hsome]
          dsimp only
          rw [hitem]
          dsimp only
          rw [herr]
      · have hnone : values[index]? = none :=
          List.getElem?_eq_none (by omega)
        constructor
        · intro hle
          omega
        · intro hlt
          refine ⟨e, ?_⟩
          unfold parseGo
          dsimp only
          rw [if_neg Bool.false_ne_true, if_pos rfl, hnone]
    · have hcount : (v :: rest).count '?' = rest.count '?' := by
        simp [List.count_cons, hq]
      rw [hcount]
      have hrec := ih e (buf ++ [v]) index hrnh hidx
      constructor
      · intro hle
        obtain ⟨e', buf', hok⟩ := hrec.1 (by omega)
        refine ⟨e', buf', ?_⟩
        unfold parseGo
        dsimp only
        rw [if_neg Bool.false_ne_true, if_neg hq, if_neg hvnh, hok]
      · intro hlt
        obtain ⟨e', herr⟩ := hrec.2 (by omega)
        refine ⟨e', ?_⟩
        unfold parseGo
        dsimp only
        rw [if_neg Bool.false_ne_true, if_neg hq, if_neg hvnh, herr]


/-- `parse` on a name-free template: too few arguments yields the coded
`MismatchedValueCount` error; too many arguments yields the plain
`fmt.Errorf` mismatch error from the final count check. -/
theorem parse_count_mismatch (e : Expr) (t : Str) (values : List GoValue)
    (hnh : '#' ∉ t) (hm : ∀ v ∈ values, ∃ item, marshal v = .ok item) :
    (values.length < t.count '?' →
      (e.parse t values).2 =
        .error (errorf ErrMismatchedValueCount "not enough values")) ∧
    (t.count '?' < values.length →
      (e.parse t values).2 =
        .error (.fmtErr ("mismatched number of values; got " ++
          Nat.repr values.length ++ ", want " ++ Nat.repr (t.count '?')))) := by
  have h := parseGo_no_hash values hm t e [] 0 hnh (by omega)
  constructor
  · intro hlt
    obtain ⟨e', herr⟩ := h.2 (by omega)
    rw [Expr.parse, herr]
  · intro hgt
    obtain ⟨e', buf', hok⟩ := h.1 (by omega)
    rw [show (0 : Nat) + t.count '?' = t.count '?' from by omega] at hok
    rw [Expr.parse, hok]
    dsimp only
    rw [if_pos (by omega)]

/-- C5 (amended): for clause-building calls on name-free templates with
marshalable arguments, a template with more `?` placeholders than
arguments fails with the coded `MismatchedValueCount` error, while a call
supplying more arguments than the template consumes fails with a plain
`fmt` error naming the mismatch — an error that does NOT carry the
`MismatchedValueCount` class. -/
theorem mismatched_value_count (e : Expr) (c : ClauseCall)
    (hnh : '#' ∉ c.template)
    (hm : ∀ v ∈ c.args, ∃ item, marshal v = .ok item) :
    (c.args.length < c.template.count '?' →
      (e.applyCall c).2 = some (errorf ErrMismatchedValueCount "not enough values") ∧
      IsMismatchedValueCountError
        (errorf ErrMismatchedValueCount "not enough values") = true) ∧
    (c.template.count '?' < c.args.length →
      (e.applyCall c).2 = some (.fmtErr ("mismatched number of values; got " ++
        Nat.repr c.args.length ++ ", want " ++ Nat.repr (c.template.count '?'))) ∧
      (∀ m, IsMismatchedValueCountError (.fmtErr m) = false)) := by
  have hp := parse_count_mismatch e c.template c.args hnh hm
  have happ := applyCall_err e c
  constructor
  · intro hlt
    refine ⟨?_, by decide⟩
    rw [happ, hp.1 hlt]
  · intro hgt
    refine ⟨?_, fun m => rfl⟩
    rw [happ, hp.2 hgt]

/-- C5 counterexample (and positive half): the two spec examples do fail
with the coded `MismatchedValueCount` error, but the too-many-arguments
direction fails with a plain error that the `MismatchedValueCount` class
check rejects — not "identically with the same error class". -/
theorem mismatched_value_count_cex :
    ((newExpression []).Set "#a = ?, #b = ?".data [.str "v1"]).2 =
      some (errorf ErrMismatchedValueCount "not enough values") ∧
    ((newExpression []).Condition "#a = ?".data []).2 =
      some (errorf ErrMismatchedValueCount "not enough values") ∧
    ((newExpression []).Set "a".data [.str "x"]).2 =
      some (.fmtErr "mismatched number of values; got 1, want 0") ∧
    IsMismatchedValueCountError
      (.fmtErr "mismatched number of values; got 1, want 0") = false ∧
    IsMismatchedValueCountError
      (errorf ErrMismatchedValueCount "not enough values") = true := by
  refine ⟨by decide, by decide, by decide, by decide, by decide⟩

/-- C5 witness: concrete too-few and too-many calls. -/
theorem mismatched_value_count_witness :
    ((newExpression []).applyCall (.set "? ?".data [.str "x"])).2 =
      some (errorf ErrMismatchedValueCount "not enough values") ∧
    ((newExpression []).applyCall (.condition "?".data [.str "x", .str "y"])).2 =
      some (.fmtErr "mismatched number of values; got 2, want 1") := by
  constructor
  · exact ((mismatched_value_count (newExpression []) (.set "? ?".data [.str "x"])
      (by decide)
      (by intro v hv
          simp [ClauseCall.args] at hv
          subst hv
          exact ⟨_, rfl⟩)).1 (by decide)).1
  · exact ((mismatched_value_count (newExpression [])
      (.condition "?".data [.str "x", .str "y"])
      (by decide)
      (by intro v hv
          simp [ClauseCall.args] at hv
          rcases hv with rfl | rfl
          · exact ⟨_, rfl⟩
          · exact ⟨_, rfl⟩)).2 (by decide)).1



/-- Written from the claim's words: the given sections joined by single
spaces (comparison definition for the rendering theorem). -/
def joinedBySingleSpaces : List Str → Str
  | [] => []
  | [s] => s
  | s :: rest => s ++ ' ' :: joinedBySingleSpaces rest

/-- The update accumulators present on an expression, in the source's
fixed emission order `Sets, Removes, Adds, Deletes`. -/
def presentUpdateSections (e : Expr) : List Str :=
  [e.Sets, e.Removes, e.Adds, e.Deletes].filterMap id

/-- Chopping the final space off the space-terminated concatenation of
sections yields exactly the single-space join. -/
theorem joined_take (parts : List Str) (h : parts ≠ []) :
    ((parts.map (fun s => s ++ [' '])).flatten).take
      (((parts.map (fun s => s ++ [' '])).flatten).length - 1) =
    joinedBySingleSpaces parts := by
  induction parts with
  | nil => exact absurd rfl h
  | cons s rest ih =>
    cases rest with
    | nil =>
      simp [joinedBySingleSpaces, List.take_left]
    | cons r t =>
      have hrest : r :: t ≠ [] := by simp
      have hlen : 1 ≤ (((r :: t).map (fun x => x ++ [' '])).flatten).length := by
        rw [List.map_cons, List.flatten_cons]
        simp only [List.length_append, List.length_cons, List.length_nil]
        omega
      rw [List.map_cons, List.flatten_cons]
      have harith :
          ((s ++ [' ']) ++ ((r :: t).map (fun x => x ++ [' '])).flatten).length - 1 =
          (s ++ [' ']).length +
            ((((r :: t).map (fun x => x ++ [' '])).flatten).length - 1) := by
        simp only [List.length_append, List.length_cons, List.length_nil]
        simp only [List.length_append, List.length_cons, List.length_nil] at hlen
        omega
      rw [harith, List.take_append, ih hrest]
      show s ++ [' '] ++ joinedBySingleSpaces (r :: t) =
        s ++ ' ' :: joinedBySingleSpaces (r :: t)
      simp

/-- The single-space join of nonempty sections is nonempty and ends with
the final section's last character. -/
theorem joined_getLast (parts : List Str) (h : parts ≠ [])
    (hp : ∀ p ∈ parts, p ≠ []) :
    joinedBySingleSpaces parts ≠ [] ∧
    (joinedBySingleSpaces parts).getLast? = (parts.getLast h).getLast? := by
  induction parts with
  | nil => exact absurd rfl h
  | cons s rest ih =>
    cases rest with
    | nil =>
      refine ⟨hp s (by simp), ?_⟩
      show s.getLast? = _
      simp [List.getLast]
    | cons r t =>
      have hrest : r :: t ≠ [] := by simp
      obtain ⟨hne, hlast⟩ := ih hrest (fun p hmem => hp p (List.mem_cons_of_mem s hmem))
      have hstep : joinedBySingleSpaces (s :: r :: t) =
          s ++ ' ' :: joinedBySingleSpaces (r :: t) := rfl
      constructor
      · rw [hstep]
        simp
      · rw [hstep, List.getLast?_append_of_ne_nil s (by simp),
          ← List.singleton_append, List.getLast?_append_of_ne_nil _ hne, hlast,
          List.getLast_cons hrest]

/-- C3: `UpdateExpression` renders the present accumulators in the fixed
order `SET, REMOVE, ADD, DELETE` regardless of call order, joined by
single spaces; it is nil exactly when all four accumulators are nil; and
it appends no trailing whitespace of its own (when no section ends in a
space, neither does the result). -/
theorem updateExpression_fixed_order (e : Expr) :
    (e.UpdateExpression = if presentUpdateSections e = [] then none
      else some (joinedBySingleSpaces (presentUpdateSections e))) ∧
    (presentUpdateSections e = [] ↔
      e.Sets = none ∧ e.Removes = none ∧ e.Adds = none ∧ e.Deletes = none) ∧
    (∀ s, e.UpdateExpression = some s →
      (∀ p ∈ presentUpdateSections e, p ≠ [] ∧ p.getLast? ≠ some ' ') →
      s.getLast? ≠ some ' ') := by
  have hbuf :
      ((match e.Sets with | none => ([] : Str) | some s => s ++ [' ']) ++
       (match e.Removes with | none => ([] : Str) | some s => s ++ [' ']) ++
       (match e.Adds with | none => ([] : Str) | some s => s ++ [' ']) ++
       (match e.Deletes with | none => ([] : Str) | some s => s ++ [' '])) =
      ((presentUpdateSections e).map (fun s => s ++ [' '])).flatten := by
    rcases hS : e.Sets with _ | s <;> rcases hR : e.Removes with _ | r <;>
      rcases hA : e.Adds with _ | a <;> rcases hD : e.Deletes with _ | d <;>
      simp [presentUpdateSections, hS, hR, hA, hD]
  have hsize :
      ((match e.Adds with | none => 0 | some s => s.length + 3) +
       (match e.Deletes with | none => 0 | some s => s.length + 3) +
       (match e.Removes with | none => 0 | some s => s.length + 3) +
       (match e.Sets with | none => 0 | some s => s.length + 3) = 0) ↔
      presentUpdateSections e = [] := by
    rcases hS : e.Sets with _ | s <;> rcases hR : e.Removes with _ | r <;>
      rcases hA : e.Adds with _ | a <;> rcases hD : e.Deletes with _ | d <;>
      simp [presentUpdateSections, hS, hR, hA, hD]
  have hmain : e.UpdateExpression = if presentUpdateSections e = [] then none
      else some (joinedBySingleSpaces (presentUpdateSections e)) := by
    rw [Expr.UpdateExpression]
    dsimp only
    by_cases hp : presentUpdateSections e = []
    · rw [if_pos (hsize.mpr hp), if_pos hp]
    · rw [if_neg (fun hc => hp (hsize.mp hc)), if_neg hp, hbuf,
        joined_take (presentUpdateSections e) hp]
  refine ⟨hmain, ?_, ?_⟩
  · rcases hS : e.Sets with _ | s <;> rcases hR : e.Removes with _ | r <;>
      rcases hA : e.Adds with _ | a <;> rcases hD : e.Deletes with _ | d <;>
      simp [presentUpdateSections, hS, hR, hA, hD]
  · intro s hs hsec
    rw [hmain] at hs
    by_cases hp : presentUpdateSections e = []
    · rw [if_pos hp] at hs
      exact Option.noConfusion hs
    · rw [if_neg hp] at hs
      have hs' : s = joinedBySingleSpaces (presentUpdateSections e) :=
        (Option.some.injEq _ _ ▸ hs).symm
      obtain ⟨hne, hlast⟩ := joined_getLast (presentUpdateSections e) hp
        (fun p hmem => (hsec p hmem).1)
      rw [hs', hlast]
      exact (hsec _ (List.getLast_mem hp)).2

/-- C3 witness: a Set-then-Add expression renders in the fixed order with
no trailing space. -/
theorem updateExpression_fixed_order_witness :
    (((newExpression []).applyCalls
      [.add "x ?".data [.num 1], .set "a = ?".data [.num 2]]).UpdateExpression =
      some "Set a = :v2 Add x :v1".data) ∧
    (∀ p ∈ presentUpdateSections ((newExpression []).applyCalls
      [.add "x ?".data [.num 1], .set "a = ?".data [.num 2]]),
      p ≠ [] ∧ p.getLast? ≠ some ' ') ∧
    (some 's' ≠ some ' ') := by
  have h := (updateExpression_fixed_order ((newExpression []).applyCalls
    [.add "x ?".data [.num 1], .set "a = ?".data [.num 2]])).1
  refine ⟨?_, by decide, by decide⟩
  rw [h]
  decide


end Ddb
